import Mathlib

/-!
# Verification of the speech pipeline (capture → VAD segmentation → transcription)

Shallow embedding of the core of the speech sample:
* `samples/speech/utils/voice_activity.py` — `VoiceActivityDetector`
* `samples/speech/utils/audio_capture.py` — the bounded frame queue in `AudioCapture.audio_callback`
* `samples/speech/utils/transcribe.py` — the error path of `WhisperTranscriber.transcribe/transcribe_async`
* `samples/speech/utils/audio_processor.py` — the status reported by `AudioProcessor._process_utterance`

Modelling conventions:
* int16 numpy arrays become `List Int`; the int16 range is stated as a hypothesis
  where a claim needs it.
* float32 values are modelled as exact rationals (`ℚ`): the conversion the code
  performs, `astype(np.float32) / 32767.0`, becomes exact division by 32767.
* The external `webrtcvad.Vad.is_speech` classifier is an oracle: each VAD-mode
  frame carries its classification outcome (`speech`, `silence`, or `error` when
  the classifier raises — the `except` branch of `_process_with_vad`).
* Generators yielding utterances become functions returning the list of yielded
  utterances together with the updated detector state.
-/

namespace Speech

/-! ## Configuration constants (`samples/speech/config.py`) -/

def SAMPLE_RATE : Nat := 16000
def FRAME_DURATION_MS : Nat := 30
def FRAMES_PER_BUFFER : Nat := SAMPLE_RATE * FRAME_DURATION_MS / 1000
def SILENCE_THRESHOLD : Nat := 20
def AUDIO_QUEUE_SIZE : Nat := 500
def MIN_UTTERANCE_LENGTH : Nat := SAMPLE_RATE
def CHUNK_DURATION_SECONDS : Nat := 3

/-! ## Data model -/

/-- An audio frame: a block of int16 samples (numpy `int16` array). -/
abbrev Frame := List Int

/-- A finalized utterance: float32 samples, modelled as exact rationals. -/
abbrev Utterance := List ℚ

/-- The int16 → float32 normalization `_finalize_utterance` applies to every
sample: `utterance_int16.astype(np.float32) / 32767.0`. -/
def normalizeSample (v : Int) : ℚ := (v : ℚ) / 32767

/-- Wraparound of an integer into the int16 range, as numpy's cast to the
`int16` dtype performs after truncation. -/
def toInt16 (n : Int) : Int := ((n + 32768) % 65536) - 32768

/-- The float32 → int16 conversion the capture callback applies to every
incoming sample: `(indata[:, 0] * 32767).astype(np.int16)`. numpy's cast to
an integer dtype truncates toward zero, then wraps into the int16 range. -/
def quantizeSample (x : ℚ) : Int :=
  toInt16 (if 0 ≤ x then ⌊x * 32767⌋ else ⌈x * 32767⌉)

/-- `VoiceActivityDetector`'s mutable state: `current_utterance` (list of
accumulated frames), `silent_frames`, `in_speech`. -/
structure VADState where
  current_utterance : List Frame
  silent_frames : Nat
  in_speech : Bool
deriving Repr, DecidableEq

/-- The state `__init__` establishes and `_reset_utterance` restores. -/
def VADState.init : VADState := ⟨[], 0, false⟩

/-- Outcome of the external `webrtcvad` classifier on one frame: speech,
silence, or an exception raised by the classifier call. -/
inductive VadResult where
  | speech
  | silence
  | error
deriving Repr, DecidableEq

/-! ## `VoiceActivityDetector` operations -/

/-- `_reset_utterance`: clear the accumulator, zero the silence counter,
leave speech mode. -/
def resetUtterance (_st : VADState) : VADState := ⟨[], 0, false⟩

/-- `_finalize_utterance`: `None` on an empty accumulator (state untouched);
otherwise concatenate the frames, discard (with reset) when shorter than
`MIN_UTTERANCE_LENGTH`, else emit the normalized float32 utterance (with
reset). Returns the optional utterance and the state after the call. -/
def finalizeUtterance (st : VADState) : Option Utterance × VADState :=
  if st.current_utterance = [] then
    (none, st)
  else
    let utterance_int16 : List Int := st.current_utterance.flatten
    if utterance_int16.length < MIN_UTTERANCE_LENGTH then
      (none, resetUtterance st)
    else
      (some (utterance_int16.map normalizeSample), resetUtterance st)

/-- `_process_with_vad`: the body of the `try` block, with the classifier's
outcome supplied as `r`. When the classifier raises (`r = .error`), nothing has
been mutated yet, so the handler leaves the state unchanged and yields
nothing. Returns the yielded utterances and the state after the call. -/
def processWithVad (st : VADState) (frame : Frame) (r : VadResult) :
    List Utterance × VADState :=
  match r with
  | .error => ([], st)
  | .speech =>
      ([], { current_utterance := st.current_utterance ++ [frame],
             silent_frames := 0, in_speech := true })
  | .silence =>
      if st.in_speech then
        let st1 : VADState :=
          { st with silent_frames := st.silent_frames + 1,
                    current_utterance := st.current_utterance ++ [frame] }
        if st1.silent_frames ≥ SILENCE_THRESHOLD then
          match finalizeUtterance st1 with
          | (some u, st2) => ([u], st2)
          | (none, st2) => ([], st2)
        else
          ([], st1)
      else
        ([], st)

/-- `_process_without_vad`: append unconditionally; once the accumulated
sample count reaches `SAMPLE_RATE * CHUNK_DURATION_SECONDS`, finalize. -/
def processWithoutVad (st : VADState) (frame : Frame) :
    List Utterance × VADState :=
  let st1 : VADState := { st with current_utterance := st.current_utterance ++ [frame] }
  let total_samples := (st1.current_utterance.map List.length).sum
  if total_samples ≥ SAMPLE_RATE * CHUNK_DURATION_SECONDS then
    match finalizeUtterance st1 with
    | (some u, st2) => ([u], st2)
    | (none, st2) => ([], st2)
  else
    ([], st1)

/-- `process_frame`: dispatch on `use_vad`. The classification outcome `r` is
only consulted in VAD mode. -/
def processFrame (useVad : Bool) (st : VADState) (frame : Frame) (r : VadResult) :
    List Utterance × VADState :=
  if useVad then processWithVad st frame r else processWithoutVad st frame

/-- Feeding a sequence of frames (each with its classification outcome) to
`process_frame`, collecting every yielded utterance in order. -/
def runFrames (useVad : Bool) (st : VADState) :
    List (Frame × VadResult) → List Utterance × VADState
  | [] => ([], st)
  | (f, r) :: rest =>
      let step := processFrame useVad st f r
      let next := runFrames useVad step.2 rest
      (step.1 ++ next.1, next.2)

/-! ## Bounded frame queue (`audio_capture.py`) -/

/-- `queue.Queue.put_nowait`: enqueue at the tail, or raise `queue.Full`
(modelled as `Except.error`) when the queue already holds `AUDIO_QUEUE_SIZE`
entries. -/
def putNowait (q : List Frame) (f : Frame) : Except Unit (List Frame) :=
  if q.length < AUDIO_QUEUE_SIZE then .ok (q ++ [f]) else .error ()

/-- The enqueue step of `AudioCapture.audio_callback`: `put_nowait` inside
`try`, with `queue.Full` caught (frame dropped, warning logged). The callback
itself never raises. -/
def audioCallbackEnqueue (q : List Frame) (f : Frame) : List Frame :=
  match putNowait q f with
  | .ok q1 => q1
  | .error _ => q

/-! ## Transcriber error path (`transcribe.py`, `audio_processor.py`) -/

/-- Outcome of the underlying `model.transcribe` call: the produced text, or
an exception. Both `WhisperTranscriber.transcribe` and the worker body of
`transcribe_async` wrap this call identically. -/
abbrev ModelOutcome := Except String String

/-- `WhisperTranscriber.transcribe` / `transcribe_async`: on success return
`result["text"].strip()`; on any exception log and return `""`. -/
def transcribeText (outcome : ModelOutcome) : String :=
  match outcome with
  | .ok text => text.trim
  | .error _ => ""

/-- What `AudioProcessor._process_utterance` reports after the transcription
call returns `text`: the timestamped transcription on truthy (nonempty) text,
the "no speech detected" status otherwise. -/
inductive UtteranceReport where
  | transcribed (text : String)
  | noSpeech
deriving Repr, DecidableEq

/-- The `if text:` branch of `_process_utterance`. -/
def processUtteranceReport (text : String) : UtteranceReport :=
  if text = "" then .noSpeech else .transcribed text

/-- Reachable-state invariant of the VAD-mode detector: the silence counter
stays strictly below the threshold, a detector not in speech holds a cleared
counter and an empty accumulator, and a detector in speech holds a nonempty
accumulator. -/
def VadInv (st : VADState) : Prop :=
  st.silent_frames < SILENCE_THRESHOLD ∧
  (st.in_speech = false → st.silent_frames = 0 ∧ st.current_utterance = []) ∧
  (st.in_speech = true → st.current_utterance ≠ [])

/-! ## Helper lemmas about the detector -/

/-- Total number of samples across a list of frames. -/
def framesLen (fs : List Frame) : Nat := (fs.map List.length).sum

theorem framesLen_append (a b : List Frame) :
    framesLen (a ++ b) = framesLen a + framesLen b := by
  simp [framesLen]

theorem length_flatten_frames (fs : List Frame) :
    fs.flatten.length = framesLen fs := by
  simp [framesLen]

/-- Anatomy of a successful finalization: the accumulator was nonempty and
long enough, the utterance is its flattened, normalized content, and the
state is reset. -/
theorem finalizeUtterance_emit {st : VADState} {u : Utterance} {st' : VADState}
    (h : finalizeUtterance st = (some u, st')) :
    st.current_utterance ≠ [] ∧
    MIN_UTTERANCE_LENGTH ≤ framesLen st.current_utterance ∧
    u = st.current_utterance.flatten.map normalizeSample ∧
    st' = resetUtterance st := by
  simp only [finalizeUtterance] at h
  split at h
  · exact Option.noConfusion (congrArg Prod.fst h)
  · rename_i h0
    split at h
    · exact Option.noConfusion (congrArg Prod.fst h)
    · rename_i h1
      injection h with hfst hsnd
      injection hfst with hu
      refine ⟨h0, ?_, hu.symm, hsnd.symm⟩
      rw [← length_flatten_frames]
      exact Nat.le_of_not_lt h1

/-- Whatever the state after `_finalize_utterance`, its accumulator-relevant
fields are either untouched (empty accumulator) or fully reset. -/
theorem finalizeUtterance_snd (st : VADState) :
    (finalizeUtterance st).2 = st ∨ (finalizeUtterance st).2 = resetUtterance st := by
  simp only [finalizeUtterance]
  split
  · left; rfl
  · split
    · right; rfl
    · right; rfl

/-- Every utterance yielded by a single `process_frame` call is at least
`MIN_UTTERANCE_LENGTH` samples long. -/
theorem mem_processFrame_length {useVad : Bool} {st : VADState} {f : Frame}
    {r : VadResult} {u : Utterance}
    (h : u ∈ (processFrame useVad st f r).1) :
    MIN_UTTERANCE_LENGTH ≤ u.length := by
  unfold processFrame at h
  split at h
  · cases r with
    | error => simp [processWithVad] at h
    | speech => simp [processWithVad] at h
    | silence =>
        simp only [processWithVad] at h
        split at h
        · split at h
          · split at h
            · rename_i heq
              obtain ⟨_, hlen, hu, _⟩ := finalizeUtterance_emit heq
              simp only [List.mem_singleton] at h
              subst h
              rw [hu, List.length_map, length_flatten_frames]
              exact hlen
            · simp at h
          · simp at h
        · simp at h
  · simp only [processWithoutVad] at h
    split at h
    · split at h
      · rename_i heq
        obtain ⟨_, hlen, hu, _⟩ := finalizeUtterance_emit heq
        simp only [List.mem_singleton] at h
        subst h
        rw [hu, List.length_map, length_flatten_frames]
        exact hlen
      · simp at h
    · simp at h

/-- Splitting a run of frames into two phases. -/
theorem runFrames_append (useVad : Bool) (st : VADState)
    (a b : List (Frame × VadResult)) :
    runFrames useVad st (a ++ b) =
      ((runFrames useVad st a).1 ++ (runFrames useVad (runFrames useVad st a).2 b).1,
       (runFrames useVad (runFrames useVad st a).2 b).2) := by
  induction a generalizing st with
  | nil => simp [runFrames]
  | cons p rest ih =>
      obtain ⟨f, r⟩ := p
      simp [runFrames, ih (processFrame useVad st f r).2, List.append_assoc]

theorem framesLen_nil : framesLen [] = 0 := rfl

theorem framesLen_cons (f : Frame) (fs : List Frame) :
    framesLen (f :: fs) = f.length + framesLen fs := by
  simp [framesLen]

/-- When every frame has the same size, the total sample count is
`count * size`. -/
theorem framesLen_const (fs : List Frame) (L : Nat)
    (h : ∀ f ∈ fs, f.length = L) :
    framesLen fs = fs.length * L := by
  induction fs with
  | nil => simp [framesLen]
  | cons f rest ih =>
      rw [framesLen_cons, h f (List.mem_cons_self f rest),
        ih fun g hg => h g (List.mem_cons_of_mem f hg)]
      simp [Nat.add_mul, Nat.add_comm]

theorem framesLen_pos (fs : List Frame) (hne : fs ≠ [])
    (hpos : ∀ f ∈ fs, f ≠ []) : 1 ≤ framesLen fs := by
  cases fs with
  | nil => exact absurd rfl hne
  | cons f rest =>
      rw [framesLen_cons]
      have : f ≠ [] := hpos f (List.mem_cons_self f rest)
      have : 1 ≤ f.length := List.length_pos.mpr this
      omega

/-- Feeding speech-classified frames: they accumulate, the silence counter
clears, speech mode is entered, nothing is yielded. -/
theorem runFrames_speech (fs : List Frame) (hne : fs ≠ []) (st : VADState) :
    runFrames true st (fs.map fun f => (f, VadResult.speech)) =
      ([], ⟨st.current_utterance ++ fs, 0, true⟩) := by
  induction fs generalizing st with
  | nil => exact absurd rfl hne
  | cons f rest ih =>
      by_cases hr : rest = []
      · subst hr
        simp [runFrames, processFrame, processWithVad]
      · simp only [List.map_cons, runFrames]
        have hstep : processFrame true st f VadResult.speech =
            ([], ⟨st.current_utterance ++ [f], 0, true⟩) := by
          simp [processFrame, processWithVad]
        rw [hstep, ih hr]
        simp

/-- Feeding silence-classified frames while in speech mode, too few to reach
the threshold: they are still appended to the accumulator and the counter
advances, but nothing is yielded. -/
theorem runFrames_silence_below (gs : List Frame) (acc : List Frame) (s : Nat)
    (hs : s + gs.length < SILENCE_THRESHOLD) :
    runFrames true ⟨acc, s, true⟩ (gs.map fun g => (g, VadResult.silence)) =
      ([], ⟨acc ++ gs, s + gs.length, true⟩) := by
  induction gs generalizing acc s with
  | nil => simp [runFrames]
  | cons g rest ih =>
      have hlen : s + (rest.length + 1) < SILENCE_THRESHOLD := by
        simpa using hs
      have hlt : ¬ s + 1 ≥ SILENCE_THRESHOLD := by omega
      simp only [List.map_cons, runFrames]
      have hstep : processFrame true ⟨acc, s, true⟩ g VadResult.silence =
          ([], ⟨acc ++ [g], s + 1, true⟩) := by
        simp [processFrame, processWithVad, hlt]
      rw [hstep, ih (acc ++ [g]) (s + 1) (by omega)]
      have h1 : (acc ++ [g]) ++ rest = acc ++ (g :: rest) := by simp
      have h2 : s + 1 + rest.length = s + (g :: rest).length := by
        simp only [List.length_cons]
        omega
      rw [h1, h2]
      rfl

/-- Non-VAD mode below the chunk bound: every frame is appended
unconditionally (its classification outcome ignored), nothing is yielded,
and the other state fields are untouched. -/
theorem runFrames_noVad_below (inputs : List (Frame × VadResult))
    (acc : List Frame) (s : Nat) (b : Bool)
    (h : framesLen acc + framesLen (inputs.map Prod.fst) <
      SAMPLE_RATE * CHUNK_DURATION_SECONDS) :
    runFrames false ⟨acc, s, b⟩ inputs =
      ([], ⟨acc ++ inputs.map Prod.fst, s, b⟩) := by
  induction inputs generalizing acc with
  | nil => simp [runFrames]
  | cons p rest ih =>
      obtain ⟨f, r⟩ := p
      have hflat : framesLen acc + (f.length + framesLen (rest.map Prod.fst)) <
          SAMPLE_RATE * CHUNK_DURATION_SECONDS := by
        simpa [framesLen_cons] using h
      have hbound : framesLen (acc ++ [f]) + framesLen (rest.map Prod.fst) <
          SAMPLE_RATE * CHUNK_DURATION_SECONDS := by
        rw [framesLen_append, framesLen_cons, framesLen_nil]
        omega
      have hc : ¬ (SAMPLE_RATE * CHUNK_DURATION_SECONDS ≤
          (acc.map List.length).sum + f.length) := by
        simp only [framesLen] at hflat
        omega
      simp only [runFrames]
      have hstep : processFrame false ⟨acc, s, b⟩ f r =
          ([], ⟨acc ++ [f], s, b⟩) := by
        simp [processFrame, processWithoutVad, hc]
      rw [hstep, ih (acc ++ [f]) hbound]
      simp

/-- The silence frame that reaches the threshold: it is still appended, then
the utterance is finalized and, when long enough, emitted, with the state
reset. -/
theorem processFrame_silence_threshold (acc : List Frame) (g : Frame)
    (hmin : MIN_UTTERANCE_LENGTH ≤ framesLen (acc ++ [g])) :
    processFrame true ⟨acc, 19, true⟩ g VadResult.silence =
      ([(acc ++ [g]).flatten.map normalizeSample], VADState.init) := by
  have hmin' : ¬ ((acc.map List.length).sum + g.length < MIN_UTTERANCE_LENGTH) := by
    rw [framesLen_append, framesLen_cons, framesLen_nil] at hmin
    simp only [framesLen] at hmin
    omega
  simp [processFrame, processWithVad, SILENCE_THRESHOLD, finalizeUtterance,
    hmin', resetUtterance, VADState.init]

/-- A run of a single frame, spelled out. -/
theorem runFrames_singleton (useVad : Bool) (st : VADState) (f : Frame) (r : VadResult) :
    runFrames useVad st [(f, r)] =
      ((processFrame useVad st f r).1 ++ [], (processFrame useVad st f r).2) := rfl

/-- The frame that pushes the accumulated sample count to the non-VAD chunk
bound: it is appended, then the utterance is finalized and emitted (the chunk
bound exceeds the minimum length), with the state reset. -/
theorem processFrame_chunk_threshold (acc : List Frame) (f : Frame)
    (s : Nat) (b : Bool) (r : VadResult)
    (htot : SAMPLE_RATE * CHUNK_DURATION_SECONDS ≤ framesLen (acc ++ [f])) :
    processFrame false ⟨acc, s, b⟩ f r
      = ([(acc ++ [f]).flatten.map normalizeSample], VADState.init) := by
  have h1 : SAMPLE_RATE * CHUNK_DURATION_SECONDS ≤ (acc.map List.length).sum + f.length := by
    rw [framesLen_append, framesLen_cons, framesLen_nil] at htot
    simp only [framesLen] at htot
    omega
  have h2 : ¬ ((acc.map List.length).sum + f.length < MIN_UTTERANCE_LENGTH) := by
    simp only [SAMPLE_RATE, CHUNK_DURATION_SECONDS] at h1
    simp only [MIN_UTTERANCE_LENGTH, SAMPLE_RATE]
    omega
  simp [processFrame, processWithoutVad, finalizeUtterance, h1, h2,
    resetUtterance, VADState.init]

/-- Prefixes of a pure speech run never yield anything. -/
theorem runFrames_speech_prefix_nil (sf : List Frame) (k : Nat) :
    (runFrames true VADState.init ((sf.map fun f => (f, VadResult.speech)).take k)).1 = [] := by
  rw [← List.map_take]
  by_cases h0 : sf.take k = []
  · rw [h0]
    rfl
  · rw [runFrames_speech (sf.take k) h0 VADState.init]

/-! ## Claim theorems and witnesses -/

/-- **C2.** In VAD mode, from the reset state, N frames classified as speech
followed by exactly `SILENCE_THRESHOLD` frames classified as silence (each
frame one capture block of `FRAMES_PER_BUFFER` samples) finalize the
utterance on the 20th silent frame; provided the N + 20 frames meet the
minimum length, exactly one utterance is yielded, containing exactly
(N + `SILENCE_THRESHOLD`) frames' worth of samples — the trailing silent
frames are appended, not dropped — and no prefix of the run yields
anything. -/
theorem vad_silence_threshold_emits
    (sf gs : List Frame)
    (hgs : gs.length = SILENCE_THRESHOLD)
    (hsz : ∀ f ∈ sf ++ gs, f.length = FRAMES_PER_BUFFER)
    (hmin : MIN_UTTERANCE_LENGTH ≤ (sf.length + SILENCE_THRESHOLD) * FRAMES_PER_BUFFER) :
    (runFrames true VADState.init
        ((sf.map fun f => (f, VadResult.speech)) ++
         (gs.map fun g => (g, VadResult.silence)))).1
      = [(sf ++ gs).flatten.map normalizeSample] ∧
    ((sf ++ gs).flatten.map normalizeSample).length
      = (sf.length + SILENCE_THRESHOLD) * FRAMES_PER_BUFFER ∧
    (∀ k, k < sf.length + SILENCE_THRESHOLD →
      (runFrames true VADState.init
        (((sf.map fun f => (f, VadResult.speech)) ++
          (gs.map fun g => (g, VadResult.silence))).take k)).1 = []) := by
  have hNpos : 0 < sf.length := by
    have h480 : FRAMES_PER_BUFFER = 480 := by norm_num [FRAMES_PER_BUFFER, SAMPLE_RATE, FRAME_DURATION_MS]
    rw [h480] at hmin
    simp only [MIN_UTTERANCE_LENGTH, SAMPLE_RATE, SILENCE_THRESHOLD] at hmin
    omega
  have hN : sf ≠ [] := List.ne_nil_of_length_pos hNpos
  have hgne : gs ≠ [] := by
    intro hc
    rw [hc] at hgs
    simp [SILENCE_THRESHOLD] at hgs
  have hfl : framesLen (sf ++ gs) = (sf.length + SILENCE_THRESHOLD) * FRAMES_PER_BUFFER := by
    rw [framesLen_const (sf ++ gs) FRAMES_PER_BUFFER hsz]
    simp [hgs]
  obtain ⟨g, gs1, hsplit⟩ : ∃ g gs1, gs = gs1 ++ [g] :=
    ⟨gs.getLast hgne, gs.dropLast, (List.dropLast_append_getLast hgne).symm⟩
  have hlen1 : gs1.length = 19 := by
    have hx := hgs
    rw [hsplit] at hx
    simp only [List.length_append, List.length_singleton, SILENCE_THRESHOLD] at hx
    omega
  have h1 := runFrames_speech sf hN VADState.init
  have h2 : (⟨VADState.init.current_utterance ++ sf, 0, true⟩ : VADState)
      = (⟨sf, 0, true⟩ : VADState) := by
    simp [VADState.init]
  have h3 := runFrames_silence_below gs1 sf 0 (by rw [hlen1]; simp [SILENCE_THRESHOLD])
  -- phase analysis of the full run
  have hrun : runFrames true VADState.init
      ((sf.map fun f => (f, VadResult.speech)) ++ (gs.map fun g => (g, VadResult.silence)))
      = ([(sf ++ gs).flatten.map normalizeSample], VADState.init) := by
    have h4 : processFrame true (⟨sf ++ gs1, 0 + gs1.length, true⟩ : VADState) g
        VadResult.silence
        = ([((sf ++ gs1) ++ [g]).flatten.map normalizeSample], VADState.init) := by
      have h19 : 0 + gs1.length = 19 := by omega
      rw [h19]
      exact processFrame_silence_threshold (sf ++ gs1) g
        (by rw [List.append_assoc, ← hsplit, hfl]; exact hmin)
    rw [hsplit, List.map_append]
    simp only [runFrames_append, h1, h2, h3, h4, runFrames, List.map_cons, List.map_nil]
    rw [List.append_assoc, ← hsplit]
    simp
  refine ⟨by rw [hrun], ?_, ?_⟩
  · rw [List.length_map, length_flatten_frames, hfl]
  · intro k hk
    rw [List.take_append_eq_append_take]
    by_cases hkN : k ≤ sf.length
    · have h0 : k - (sf.map fun f => (f, VadResult.speech)).length = 0 := by
        simp only [List.length_map]
        omega
      rw [h0, List.take_zero, List.append_nil]
      exact runFrames_speech_prefix_nil sf k
    · push_neg at hkN
      have htakeall : (sf.map fun f => (f, VadResult.speech)).take k
          = sf.map fun f => (f, VadResult.speech) := by
        apply List.take_of_length_le
        simp only [List.length_map]
        omega
      have hrem : (gs.map fun g => (g, VadResult.silence)).take
            (k - (sf.map fun f => (f, VadResult.speech)).length)
          = (gs.take (k - sf.length)).map fun g => (g, VadResult.silence) := by
        rw [List.map_take, List.length_map]
      have hbelow : 0 + (gs.take (k - sf.length)).length < SILENCE_THRESHOLD := by
        simp only [SILENCE_THRESHOLD, List.length_take] at hk ⊢
        omega
      have h3' := runFrames_silence_below (gs.take (k - sf.length)) sf 0 hbelow
      rw [htakeall, hrem]
      simp only [runFrames_append, h1, h2, h3']
      simp

/-- Witness for C2 at N = 14 speech frames and 20 silence frames of 480
samples each (total 16320 ≥ 16000). -/
theorem vad_silence_threshold_emits_witness :
    (runFrames true VADState.init
        (((List.replicate 14 (List.replicate 480 (1 : Int))).map fun f => (f, VadResult.speech)) ++
         ((List.replicate 20 (List.replicate 480 (0 : Int))).map fun g => (g, VadResult.silence)))).1
      = [(List.replicate 14 (List.replicate 480 (1 : Int)) ++
          List.replicate 20 (List.replicate 480 (0 : Int))).flatten.map normalizeSample] ∧
    ((List.replicate 14 (List.replicate 480 (1 : Int)) ++
      List.replicate 20 (List.replicate 480 (0 : Int))).flatten.map normalizeSample).length
      = ((List.replicate 14 (List.replicate 480 (1 : Int))).length + SILENCE_THRESHOLD) *
          FRAMES_PER_BUFFER ∧
    (∀ k, k < (List.replicate 14 (List.replicate 480 (1 : Int))).length + SILENCE_THRESHOLD →
      (runFrames true VADState.init
        ((((List.replicate 14 (List.replicate 480 (1 : Int))).map fun f => (f, VadResult.speech)) ++
          ((List.replicate 20 (List.replicate 480 (0 : Int))).map fun g => (g, VadResult.silence))).take k)).1 = []) :=
  vad_silence_threshold_emits
    (List.replicate 14 (List.replicate 480 (1 : Int)))
    (List.replicate 20 (List.replicate 480 (0 : Int)))
    (by simp only [List.length_replicate, SILENCE_THRESHOLD])
    (by
      intro f hf
      rw [List.mem_append] at hf
      have hlen : f.length = 480 := by
        cases hf with
        | inl h => rw [List.eq_of_mem_replicate h, List.length_replicate]
        | inr h => rw [List.eq_of_mem_replicate h, List.length_replicate]
      rw [hlen]
      decide)
    (by
      simp only [List.length_replicate]
      decide)

/-- **C1.** For every sequence of int16 frames fed to `process_frame`, in
either mode and from any detector state, every yielded utterance contains at
least `MIN_UTTERANCE_LENGTH` (16000) samples; any shorter accumulation is
discarded at finalization and never emitted. -/
theorem utterance_min_length {useVad : Bool} {st : VADState}
    {inputs : List (Frame × VadResult)} {u : Utterance}
    (h : u ∈ (runFrames useVad st inputs).1) :
    MIN_UTTERANCE_LENGTH ≤ u.length := by
  induction inputs generalizing st with
  | nil => simp [runFrames] at h
  | cons p rest ih =>
      obtain ⟨f, r⟩ := p
      simp only [runFrames, List.mem_append] at h
      cases h with
      | inl h => exact mem_processFrame_length h
      | inr h => exact ih h

/-- Witness for C1 at a concrete emitting run (one 48000-sample frame in
non-VAD mode). -/
theorem utterance_min_length_witness :
    MIN_UTTERANCE_LENGTH ≤ (List.replicate 48000 (normalizeSample 1)).length := by
  have hstep := processFrame_chunk_threshold [] (List.replicate 48000 (1 : Int))
    0 false VadResult.speech
    (by
      rw [framesLen_append, framesLen_cons, framesLen_nil, List.length_replicate]
      decide)
  have hrun : runFrames false VADState.init
      [(List.replicate 48000 (1 : Int), VadResult.speech)]
      = ([(([] : List Frame) ++ [List.replicate 48000 (1 : Int)]).flatten.map
          normalizeSample], VADState.init) := by
    show runFrames false ⟨[], 0, false⟩ _ = _
    rw [runFrames_singleton, hstep, List.append_nil]
  have hu : (([] : List Frame) ++ [List.replicate 48000 (1 : Int)]).flatten.map
      normalizeSample = List.replicate 48000 (normalizeSample 1) := by
    rw [List.nil_append, List.flatten_cons, List.flatten_nil, List.append_nil,
      List.map_replicate]
  have hmem : List.replicate 48000 (normalizeSample 1) ∈
      (runFrames false VADState.init
        [(List.replicate 48000 (1 : Int), VadResult.speech)]).1 := by
    rw [hrun, hu]
    exact List.mem_singleton_self _
  exact utterance_min_length hmem

/-- **C7.** In non-VAD mode, from an empty accumulator, feeding (nonempty)
frames totalling exactly `SAMPLE_RATE * CHUNK_DURATION_SECONDS` (48000)
samples yields exactly one utterance of exactly that many samples, the
detector state (in particular the accumulator) is reset immediately
afterwards, and no proper prefix of the run yields anything. The
classification outcomes attached to the frames are ignored. -/
theorem nonvad_chunk_emits_once
    (inputs : List (Frame × VadResult))
    (hpos : ∀ p ∈ inputs, p.1 ≠ [])
    (htot : framesLen (inputs.map Prod.fst) = SAMPLE_RATE * CHUNK_DURATION_SECONDS) :
    runFrames false VADState.init inputs
      = ([(inputs.map Prod.fst).flatten.map normalizeSample], VADState.init) ∧
    ((inputs.map Prod.fst).flatten.map normalizeSample).length
      = SAMPLE_RATE * CHUNK_DURATION_SECONDS ∧
    ∀ k, k < inputs.length →
      (runFrames false VADState.init (inputs.take k)).1 = [] := by
  have hne : inputs ≠ [] := by
    intro hc
    rw [hc] at htot
    simp only [List.map_nil, framesLen_nil, SAMPLE_RATE, CHUNK_DURATION_SECONDS] at htot
    omega
  obtain ⟨p, A, hsplit⟩ : ∃ p A, inputs = A ++ [p] :=
    ⟨inputs.getLast hne, inputs.dropLast, (List.dropLast_append_getLast hne).symm⟩
  obtain ⟨f, r⟩ := p
  have hfpos : f ≠ [] := hpos (f, r) (by rw [hsplit]; simp)
  have hflen : 1 ≤ f.length := List.length_pos.mpr hfpos
  have htot' : framesLen (A.map Prod.fst) + f.length
      = SAMPLE_RATE * CHUNK_DURATION_SECONDS := by
    rw [hsplit, List.map_append, framesLen_append] at htot
    simpa [framesLen_cons, framesLen_nil] using htot
  have hbelow : framesLen ([] : List Frame) + framesLen (A.map Prod.fst) <
      SAMPLE_RATE * CHUNK_DURATION_SECONDS := by
    rw [framesLen_nil]
    omega
  have h1 : runFrames false VADState.init A = ([], ⟨A.map Prod.fst, 0, false⟩) := by
    simpa [VADState.init] using runFrames_noVad_below A [] 0 false hbelow
  have h4 := processFrame_chunk_threshold (A.map Prod.fst) f 0 false r
    (by rw [framesLen_append, framesLen_cons, framesLen_nil]; omega)
  have hframes : (A.map Prod.fst) ++ [f] = inputs.map Prod.fst := by
    rw [hsplit, List.map_append]
    rfl
  have hrun : runFrames false VADState.init inputs
      = ([(inputs.map Prod.fst).flatten.map normalizeSample], VADState.init) := by
    rw [hsplit]
    simp only [runFrames_append, h1, h4, runFrames]
    rw [hframes]
    simp only [List.nil_append, List.append_nil]
    rw [hsplit]
  refine ⟨hrun, ?_, ?_⟩
  · rw [List.length_map, length_flatten_frames, htot]
  · intro k hk
    have hsplitk : inputs.take k ++ inputs.drop k = inputs := List.take_append_drop k inputs
    have hdropne : inputs.drop k ≠ [] := by
      intro hc
      have := List.drop_eq_nil_iff.mp hc
      omega
    have hdpos : 1 ≤ framesLen ((inputs.drop k).map Prod.fst) := by
      apply framesLen_pos
      · simpa using hdropne
      · intro g hg
        obtain ⟨q, hq, rfl⟩ := List.mem_map.mp hg
        exact hpos q (List.mem_of_mem_drop hq)
    have hsum : framesLen ((inputs.take k).map Prod.fst)
        + framesLen ((inputs.drop k).map Prod.fst)
        = SAMPLE_RATE * CHUNK_DURATION_SECONDS := by
      rw [← framesLen_append, ← List.map_append, hsplitk]
      exact htot
    have hlt : framesLen ([] : List Frame) + framesLen ((inputs.take k).map Prod.fst) <
        SAMPLE_RATE * CHUNK_DURATION_SECONDS := by
      rw [framesLen_nil]
      omega
    have h := runFrames_noVad_below (inputs.take k) [] 0 false hlt
    have h' : runFrames false VADState.init (inputs.take k)
        = ([], ⟨(inputs.take k).map Prod.fst, 0, false⟩) := by
      simpa [VADState.init] using h
    rw [h']

/-- Witness for C7: a single 48000-sample frame. -/
theorem nonvad_chunk_emits_once_witness :
    runFrames false VADState.init [(List.replicate 48000 (1 : Int), VadResult.speech)]
      = ([(([(List.replicate 48000 (1 : Int), VadResult.speech)].map Prod.fst).flatten.map
          normalizeSample)], VADState.init) ∧
    ((([(List.replicate 48000 (1 : Int), VadResult.speech)].map Prod.fst).flatten.map
        normalizeSample)).length = SAMPLE_RATE * CHUNK_DURATION_SECONDS ∧
    ∀ k, k < ([(List.replicate 48000 (1 : Int), VadResult.speech)] :
        List (Frame × VadResult)).length →
      (runFrames false VADState.init
        (([(List.replicate 48000 (1 : Int), VadResult.speech)] :
          List (Frame × VadResult)).take k)).1 = [] :=
  nonvad_chunk_emits_once [(List.replicate 48000 (1 : Int), VadResult.speech)]
    (by
      intro p hp
      rw [List.mem_singleton] at hp
      rw [hp]
      decide)
    (by
      rw [List.map_cons, List.map_nil]
      dsimp only
      rw [framesLen_cons, framesLen_nil, List.length_replicate]
      decide)

/-- **C5.** After every finalization of an accumulated utterance — whether it
was emitted or discarded as too short — the detector state satisfies:
`current_utterance` is empty, `silent_frames` is 0, and `in_speech` is
false. (An utterance was accumulated, i.e. the accumulator is nonempty; on
an empty accumulator `_finalize_utterance` returns early without touching
the state.) -/
theorem finalize_resets_state (st : VADState) (h : st.current_utterance ≠ []) :
    ((finalizeUtterance st).2).current_utterance = [] ∧
    ((finalizeUtterance st).2).silent_frames = 0 ∧
    ((finalizeUtterance st).2).in_speech = false := by
  simp only [finalizeUtterance]
  split
  · rename_i h0
    exact absurd h0 h
  · split
    · exact ⟨rfl, rfl, rfl⟩
    · exact ⟨rfl, rfl, rfl⟩

/-- Witness for C5 at a concrete state (one accumulated frame, mid-speech). -/
theorem finalize_resets_state_witness :
    ((finalizeUtterance ⟨[[1]], 5, true⟩).2).current_utterance = [] ∧
    ((finalizeUtterance ⟨[[1]], 5, true⟩).2).silent_frames = 0 ∧
    ((finalizeUtterance ⟨[[1]], 5, true⟩).2).in_speech = false :=
  finalize_resets_state ⟨[[1]], 5, true⟩ (by decide)

/-- **C6.** When the frame queue already holds `AUDIO_QUEUE_SIZE` (500)
entries, the capture callback's enqueue does not block and lets no exception
escape: `put_nowait` raises `queue.Full`, the handler swallows it, the newly
arriving frame is discarded, and the queue — still exactly 500 entries — is
unchanged. -/
theorem queue_full_drops_newest (q : List Frame) (f : Frame)
    (h : q.length = AUDIO_QUEUE_SIZE) :
    putNowait q f = Except.error () ∧
    audioCallbackEnqueue q f = q ∧
    (audioCallbackEnqueue q f).length = AUDIO_QUEUE_SIZE := by
  have hnot : ¬ q.length < AUDIO_QUEUE_SIZE := by omega
  have hput : putNowait q f = Except.error () := by
    simp [putNowait, hnot]
  have hkeep : audioCallbackEnqueue q f = q := by
    simp [audioCallbackEnqueue, hput]
  exact ⟨hput, hkeep, by rw [hkeep, h]⟩

/-- Witness for C6 at a queue of exactly 500 frames. -/
theorem queue_full_drops_newest_witness :
    putNowait (List.replicate 500 ([0] : Frame)) [7] = Except.error () ∧
    audioCallbackEnqueue (List.replicate 500 ([0] : Frame)) [7]
      = List.replicate 500 ([0] : Frame) ∧
    (audioCallbackEnqueue (List.replicate 500 ([0] : Frame)) [7]).length
      = AUDIO_QUEUE_SIZE :=
  queue_full_drops_newest (List.replicate 500 ([0] : Frame)) [7]
    (by rw [List.length_replicate]; rfl)

/-- **C8.** If the per-frame classifier raises during `process_frame` in VAD
mode, the call completes, yields nothing, and the detector state
(`current_utterance`, `silent_frames`, `in_speech`) is exactly what it was
before the frame: the exception is raised before any mutation, and the
handler only logs. -/
theorem vad_classifier_error_skips_frame (st : VADState) (f : Frame) :
    processFrame true st f VadResult.error = ([], st) := rfl

/-- **C9.** If the underlying model's transcribe call raises, the
transcriber (`transcribe` and the identical worker body of
`transcribe_async`) returns the empty string instead of propagating, and
`_process_utterance` then takes the falsy-text branch, reporting the
"no speech detected" status rather than invoking the transcription
callback. -/
theorem transcription_error_reports_no_speech (e : String) :
    transcribeText (Except.error e) = "" ∧
    processUtteranceReport (transcribeText (Except.error e))
      = UtteranceReport.noSpeech := by
  refine ⟨rfl, ?_⟩
  simp [processUtteranceReport, transcribeText]

theorem finalizeUtterance_snd_reset (st : VADState) (h : st.current_utterance ≠ []) :
    (finalizeUtterance st).2 = resetUtterance st := by
  simp only [finalizeUtterance]
  split
  · rename_i h0
    exact absurd h0 h
  · split <;> rfl

/-- The `.2` of the yield-if-finalized pattern is the state `_finalize_utterance`
leaves behind. -/
theorem vadEmit_snd (st1 : VADState) :
    ((match finalizeUtterance st1 with
      | (some u, st2) => ([u], st2)
      | (none, st2) => (([] : List Utterance), st2)) : List Utterance × VADState).2
    = (finalizeUtterance st1).2 := by
  rcases hfin : finalizeUtterance st1 with ⟨ou, st2⟩
  cases ou <;> rfl

/-- The four possible states after one VAD-mode frame. -/
theorem processWithVad_snd_cases (st : VADState) (f : Frame) (r : VadResult) :
    (processWithVad st f r).2 = st ∨
    (processWithVad st f r).2 = ⟨st.current_utterance ++ [f], 0, true⟩ ∨
    ((processWithVad st f r).2 = ⟨st.current_utterance ++ [f], st.silent_frames + 1, true⟩ ∧
      st.silent_frames + 1 < SILENCE_THRESHOLD) ∨
    (processWithVad st f r).2 = VADState.init := by
  cases r with
  | error => exact Or.inl rfl
  | speech => exact Or.inr (Or.inl rfl)
  | silence =>
      simp only [processWithVad]
      split
      · rename_i hsp
        split
        · rename_i hth
          refine Or.inr (Or.inr (Or.inr ?_))
          rw [vadEmit_snd, finalizeUtterance_snd_reset _ (by simp)]
          rfl
        · rename_i hth
          refine Or.inr (Or.inr (Or.inl ⟨?_, ?_⟩))
          · rw [hsp]
          · simp only [ge_iff_le, not_le] at hth
            exact hth
      · exact Or.inl rfl

/-- One VAD-mode frame preserves the detector invariant. -/
theorem processFrame_vad_inv (st : VADState) (f : Frame) (r : VadResult)
    (h : VadInv st) : VadInv (processFrame true st f r).2 := by
  have hpv : (processFrame true st f r).2 = (processWithVad st f r).2 := rfl
  rw [hpv]
  rcases processWithVad_snd_cases st f r with hc | hc | ⟨hc, hlt⟩ | hc <;> rw [hc]
  · exact h
  · refine ⟨by norm_num [SILENCE_THRESHOLD], fun hfalse => ?_, fun _ => by simp⟩
    simp at hfalse
  · refine ⟨hlt, fun hfalse => ?_, fun _ => by simp⟩
    simp at hfalse
  · exact ⟨by decide, fun _ => ⟨rfl, rfl⟩, fun hc => by simp [VADState.init] at hc⟩

/-- Any VAD-mode run from an invariant-satisfying state ends in an
invariant-satisfying state. -/
theorem runFrames_vad_inv (inputs : List (Frame × VadResult)) (st : VADState)
    (h : VadInv st) : VadInv (runFrames true st inputs).2 := by
  induction inputs generalizing st with
  | nil => exact h
  | cons p rest ih =>
      obtain ⟨f, r⟩ := p
      simp only [runFrames]
      exact ih (processFrame true st f r).2 (processFrame_vad_inv st f r h)

/-- **C10.** Implicit invariant of the VAD-mode detector: after every
completed sequence of `process_frame` calls from the initial state,
`silent_frames` is strictly less than `SILENCE_THRESHOLD` (20); whenever
`in_speech` is false, `silent_frames` is 0 and `current_utterance` is empty;
and a silence frame arriving while not in speech changes no state at all
(and yields nothing). -/
theorem vad_state_invariant (inputs : List (Frame × VadResult)) :
    ((runFrames true VADState.init inputs).2.silent_frames < SILENCE_THRESHOLD ∧
     ((runFrames true VADState.init inputs).2.in_speech = false →
       (runFrames true VADState.init inputs).2.silent_frames = 0 ∧
       (runFrames true VADState.init inputs).2.current_utterance = [])) ∧
    ∀ (st : VADState) (f : Frame), st.in_speech = false →
      processFrame true st f VadResult.silence = ([], st) := by
  have hinit : VadInv VADState.init :=
    ⟨by decide, fun _ => ⟨rfl, rfl⟩, fun hc => by simp [VADState.init] at hc⟩
  have hmain := runFrames_vad_inv inputs VADState.init hinit
  refine ⟨⟨hmain.1, hmain.2.1⟩, ?_⟩
  intro st f hsp
  simp [processFrame, processWithVad, hsp]

/-- Witness for C10: the empty run, and a silence frame hitting a
not-in-speech detector. -/
theorem vad_state_invariant_witness :
    processFrame true ⟨[], 0, false⟩ [1, 2, 3] VadResult.silence
      = ([], ⟨[], 0, false⟩) :=
  (vad_state_invariant []).2 ⟨[], 0, false⟩ [1, 2, 3] rfl

/-- **C4.** Every int16 sample value v of a finalized utterance is emitted
as exactly v / 32767 (the embedding models float32 values as exact
rationals; the quotient is what the float32 result rounds), and the
conversion is idempotent under repeated conversion: re-quantizing the
emitted value through the capture-side float→int16 conversion and
normalizing again reproduces the same value, because the round trip
int16 → float → int16 is the identity on the int16 range. -/
theorem sample_conversion_exact (st : VADState) (u : Utterance) (st' : VADState)
    (v : Int)
    (hfin : finalizeUtterance st = (some u, st'))
    (hv : v ∈ st.current_utterance.flatten)
    (hlo : -32768 ≤ v) (hhi : v ≤ 32767) :
    normalizeSample v ∈ u ∧
    normalizeSample v = (v : ℚ) / 32767 ∧
    quantizeSample (normalizeSample v) = v ∧
    normalizeSample (quantizeSample (normalizeSample v)) = normalizeSample v := by
  obtain ⟨_, _, hu, _⟩ := finalizeUtterance_emit hfin
  have hq : quantizeSample (normalizeSample v) = v := by
    unfold quantizeSample normalizeSample toInt16
    have h32 : ((32767 : ℚ)) ≠ 0 := by norm_num
    rw [div_mul_cancel₀ _ h32]
    have hmod : (v + 32768) % 65536 = v + 32768 :=
      Int.emod_eq_of_lt (by omega) (by omega)
    by_cases h0 : (0 : ℚ) ≤ (v : ℚ) / 32767
    · rw [if_pos h0, Int.floor_intCast, hmod]
      omega
    · rw [if_neg h0, Int.ceil_intCast, hmod]
      omega
  refine ⟨?_, rfl, hq, by rw [hq]⟩
  rw [hu]
  exact List.mem_map_of_mem normalizeSample hv

/-- Witness for C4 at a concrete finalization (a 16000-sample frame of
value -5). -/
theorem sample_conversion_exact_witness :
    normalizeSample (-5) ∈ (List.replicate 16000 (-5 : Int)).map normalizeSample ∧
    normalizeSample (-5) = ((-5 : Int) : ℚ) / 32767 ∧
    quantizeSample (normalizeSample (-5)) = -5 ∧
    normalizeSample (quantizeSample (normalizeSample (-5))) = normalizeSample (-5) := by
  have hlen : ¬ (([List.replicate 16000 (-5 : Int)] : List Frame).flatten.length
      < MIN_UTTERANCE_LENGTH) := by
    rw [List.flatten_cons, List.flatten_nil, List.append_nil, List.length_replicate]
    decide
  have hfin : finalizeUtterance ⟨[List.replicate 16000 (-5 : Int)], 3, true⟩
      = (some ((List.replicate 16000 (-5 : Int)).map normalizeSample),
         (⟨[], 0, false⟩ : VADState)) := by
    unfold finalizeUtterance
    dsimp only
    rw [if_neg (List.cons_ne_nil _ _), if_neg hlen,
      List.flatten_cons, List.flatten_nil, List.append_nil]
    rfl
  have hv : (-5 : Int) ∈
      ((⟨[List.replicate 16000 (-5 : Int)], 3, true⟩ : VADState)).current_utterance.flatten := by
    show (-5 : Int) ∈ ([List.replicate 16000 (-5 : Int)] : List Frame).flatten
    rw [List.flatten_cons, List.flatten_nil, List.append_nil]
    exact List.mem_replicate.mpr ⟨by decide, rfl⟩
  exact sample_conversion_exact ⟨[List.replicate 16000 (-5 : Int)], 3, true⟩
    ((List.replicate 16000 (-5 : Int)).map normalizeSample) ⟨[], 0, false⟩ (-5)
    hfin hv (by decide) (by decide)

/-- The `.1` of the yield-if-finalized pattern is the finalized utterance,
when there is one. -/
theorem vadEmit_fst (st1 : VADState) :
    ((match finalizeUtterance st1 with
      | (some u, st2) => ([u], st2)
      | (none, st2) => (([] : List Utterance), st2)) : List Utterance × VADState).1
    = (finalizeUtterance st1).1.toList := by
  rcases hfin : finalizeUtterance st1 with ⟨ou, st2⟩
  cases ou <;> rfl

/-- A sample of an emitted utterance is the normalization of some sample of
the finalized accumulator. -/
theorem finalizeUtterance_fst_src (st1 : VADState) (u : Utterance)
    (hu : (finalizeUtterance st1).1 = some u) {x : ℚ} (hx : x ∈ u) :
    ∃ v, v ∈ st1.current_utterance.flatten ∧ x = normalizeSample v := by
  have hfin : finalizeUtterance st1 = (some u, (finalizeUtterance st1).2) := by
    rw [← hu]
  obtain ⟨_, _, huu, _⟩ := finalizeUtterance_emit hfin
  rw [huu] at hx
  obtain ⟨v, hv, hnx⟩ := List.mem_map.mp hx
  exact ⟨v, hv, hnx.symm⟩

/-- Samples of the accumulator after `_finalize_utterance` were already in
the accumulator before it. -/
theorem finalizeUtterance_snd_src (st1 : VADState) {v : Int}
    (hv : v ∈ (finalizeUtterance st1).2.current_utterance.flatten) :
    v ∈ st1.current_utterance.flatten := by
  rcases finalizeUtterance_snd st1 with h | h
  · rwa [h] at hv
  · rw [h] at hv
    simp [resetUtterance] at hv

theorem mem_flatten_append_frame {acc : List Frame} {f : Frame} {v : Int}
    (hv : v ∈ (acc ++ [f]).flatten) :
    v ∈ acc.flatten ∨ v ∈ f := by
  rw [List.flatten_append, List.flatten_cons, List.flatten_nil,
    List.append_nil] at hv
  exact List.mem_append.mp hv

/-- Samples of yielded utterances (normalized), and samples of the
post-state accumulator, originate from the pre-state accumulator or from the
frame just processed. -/
theorem processFrame_sample_src (useVad : Bool) (st : VADState) (f : Frame)
    (r : VadResult) :
    (∀ u ∈ (processFrame useVad st f r).1, ∀ x ∈ u, ∃ v,
        (v ∈ st.current_utterance.flatten ∨ v ∈ f) ∧ x = normalizeSample v) ∧
    (∀ v ∈ (processFrame useVad st f r).2.current_utterance.flatten,
        v ∈ st.current_utterance.flatten ∨ v ∈ f) := by
  unfold processFrame
  split
  · cases r with
    | error =>
        constructor
        · intro u hu
          simp [processWithVad] at hu
        · intro v hv
          exact Or.inl hv
    | speech =>
        constructor
        · intro u hu
          simp [processWithVad] at hu
        · intro v hv
          exact mem_flatten_append_frame hv
    | silence =>
        simp only [processWithVad]
        split
        · split
          · constructor
            · intro u hu x hx
              rw [vadEmit_fst, Option.mem_toList, Option.mem_def] at hu
              obtain ⟨v, hv, hnx⟩ := finalizeUtterance_fst_src _ u hu hx
              exact ⟨v, mem_flatten_append_frame hv, hnx⟩
            · intro v hv
              rw [vadEmit_snd] at hv
              exact mem_flatten_append_frame (finalizeUtterance_snd_src _ hv)
          · constructor
            · intro u hu
              simp at hu
            · intro v hv
              exact mem_flatten_append_frame hv
        · constructor
          · intro u hu
            simp at hu
          · intro v hv
            exact Or.inl hv
  · simp only [processWithoutVad]
    split
    · constructor
      · intro u hu x hx
        rw [vadEmit_fst, Option.mem_toList, Option.mem_def] at hu
        obtain ⟨v, hv, hnx⟩ := finalizeUtterance_fst_src _ u hu hx
        exact ⟨v, mem_flatten_append_frame hv, hnx⟩
      · intro v hv
        rw [vadEmit_snd] at hv
        exact mem_flatten_append_frame (finalizeUtterance_snd_src _ hv)
    · constructor
      · intro u hu
        simp at hu
      · intro v hv
        exact mem_flatten_append_frame hv

/-- Samples of utterances yielded along a run originate from the starting
accumulator or from some input frame. -/
theorem runFrames_sample_src (useVad : Bool)
    (inputs : List (Frame × VadResult)) (st : VADState) {u : Utterance} {x : ℚ}
    (hu : u ∈ (runFrames useVad st inputs).1) (hx : x ∈ u) :
    ∃ v, (v ∈ st.current_utterance.flatten ∨ ∃ p ∈ inputs, v ∈ p.1) ∧
      x = normalizeSample v := by
  induction inputs generalizing st with
  | nil => simp [runFrames] at hu
  | cons p rest ih =>
      obtain ⟨f, r⟩ := p
      simp only [runFrames, List.mem_append] at hu
      cases hu with
      | inl h =>
          obtain ⟨v, hsrc, hnorm⟩ := (processFrame_sample_src useVad st f r).1 u h x hx
          refine ⟨v, ?_, hnorm⟩
          cases hsrc with
          | inl hin => exact Or.inl hin
          | inr hin => exact Or.inr ⟨(f, r), List.mem_cons_self _ _, hin⟩
      | inr h =>
          obtain ⟨v, hsrc, hnorm⟩ := ih (processFrame useVad st f r).2 h
          refine ⟨v, ?_, hnorm⟩
          cases hsrc with
          | inl hin =>
              rcases (processFrame_sample_src useVad st f r).2 v hin with hv | hv
              · exact Or.inl hv
              · exact Or.inr ⟨(f, r), List.mem_cons_self _ _, hv⟩
          | inr hin =>
              obtain ⟨q, hq, hvq⟩ := hin
              exact Or.inr ⟨q, List.mem_cons_of_mem _ hq, hvq⟩

/-- Bounds of the int16 → float normalization over the int16 range. Note the
lower bound is -32768/32767, strictly below -1. -/
theorem normalizeSample_bounds (v : Int) (hlo : -32768 ≤ v) (hhi : v ≤ 32767) :
    -(32768 / 32767 : ℚ) ≤ normalizeSample v ∧ normalizeSample v ≤ 1 := by
  unfold normalizeSample
  have h32 : (0 : ℚ) < 32767 := by norm_num
  constructor
  · have hne : -(32768 / 32767 : ℚ) = (-32768 : ℚ) / 32767 := by ring
    rw [hne, div_le_div_iff_of_pos_right h32]
    exact_mod_cast hlo
  · have hone : (1 : ℚ) = (32767 : ℚ) / 32767 := by norm_num
    rw [hone, div_le_div_iff_of_pos_right h32]
    exact_mod_cast hhi

/-- **C3** (amended). Every utterance yielded by the detector from int16
frames consists of samples in the closed interval [-32768/32767, 1]. The
original interval [-1, 1] fails exactly for the int16 sample -32768, whose
image -32768/32767 lies strictly below -1 (see the counterexample). -/
theorem emitted_samples_bounded
    (useVad : Bool) (inputs : List (Frame × VadResult)) (u : Utterance) (x : ℚ)
    (hrange : ∀ p ∈ inputs, ∀ v ∈ p.1, -32768 ≤ v ∧ v ≤ 32767)
    (hu : u ∈ (runFrames useVad VADState.init inputs).1)
    (hx : x ∈ u) :
    -(32768 / 32767 : ℚ) ≤ x ∧ x ≤ 1 := by
  obtain ⟨v, hsrc, hnorm⟩ := runFrames_sample_src useVad inputs VADState.init hu hx
  have hvrange : -32768 ≤ v ∧ v ≤ 32767 := by
    cases hsrc with
    | inl h => simp [VADState.init] at h
    | inr h =>
        obtain ⟨p, hp, hvp⟩ := h
        exact hrange p hp v hvp
  rw [hnorm]
  exact normalizeSample_bounds v hvrange.1 hvrange.2

/-- Counterexample to C3 as stated: a 48000-sample frame of int16 value
-32768 (non-VAD mode) yields an utterance whose every sample equals
-32768/32767, strictly less than -1 — outside the claimed interval
[-1, 1]. -/
theorem samples_in_unit_interval_counterexample :
    (runFrames false VADState.init
        [(List.replicate 48000 (-32768 : Int), VadResult.speech)]).1
      = [List.replicate 48000 ((-32768 : ℚ) / 32767)] ∧
    ((-32768 : ℚ) / 32767) < -1 := by
  constructor
  · have hstep := processFrame_chunk_threshold [] (List.replicate 48000 (-32768 : Int))
      0 false VadResult.speech
      (by
        rw [framesLen_append, framesLen_cons, framesLen_nil, List.length_replicate]
        decide)
    have hns : normalizeSample (-32768) = ((-32768 : ℚ) / 32767) := by
      norm_num [normalizeSample]
    show (runFrames false ⟨[], 0, false⟩ _).1 = _
    rw [runFrames_singleton]
    dsimp only
    rw [hstep]
    dsimp only
    rw [List.append_nil, List.nil_append, List.flatten_cons, List.flatten_nil,
      List.append_nil, List.map_replicate, hns]
  · norm_num

/-- Witness for the amended C3 at a concrete emitting run. -/
theorem emitted_samples_bounded_witness :
    -(32768 / 32767 : ℚ) ≤ normalizeSample 2 ∧ normalizeSample 2 ≤ 1 := by
  have hstep := processFrame_chunk_threshold [] (List.replicate 48000 (2 : Int))
    0 false VadResult.speech
    (by
      rw [framesLen_append, framesLen_cons, framesLen_nil, List.length_replicate]
      decide)
  have hrun : runFrames false VADState.init
      [(List.replicate 48000 (2 : Int), VadResult.speech)]
      = ([(([] : List Frame) ++ [List.replicate 48000 (2 : Int)]).flatten.map
          normalizeSample], VADState.init) := by
    show runFrames false ⟨[], 0, false⟩ _ = _
    rw [runFrames_singleton, hstep, List.append_nil]
  have hu : (([] : List Frame) ++ [List.replicate 48000 (2 : Int)]).flatten.map
      normalizeSample ∈
      (runFrames false VADState.init
        [(List.replicate 48000 (2 : Int), VadResult.speech)]).1 := by
    rw [hrun]
    exact List.mem_singleton_self _
  have hx : normalizeSample 2 ∈
      (([] : List Frame) ++ [List.replicate 48000 (2 : Int)]).flatten.map
        normalizeSample := by
    rw [List.nil_append, List.flatten_cons, List.flatten_nil, List.append_nil,
      List.map_replicate]
    exact List.mem_replicate.mpr ⟨by decide, rfl⟩
  exact emitted_samples_bounded false
    [(List.replicate 48000 (2 : Int), VadResult.speech)]
    ((([] : List Frame) ++ [List.replicate 48000 (2 : Int)]).flatten.map
      normalizeSample)
    (normalizeSample 2)
    (by
      intro p hp v hv
      rw [List.mem_singleton] at hp
      rw [hp] at hv
      have hv2 : v = 2 := List.eq_of_mem_replicate hv
      rw [hv2]
      exact ⟨by decide, by decide⟩)
    hu hx

end Speech
